import Mathlib

/-!
Verification of the CUDA GatherND / GatherNDGrad operator
(`core/providers/cuda/tensor/gather_nd.cc` together with
`orttraining/training_ops/cuda/tensor/gather_nd_grad.cc`).

Shapes are modelled as lists of natural numbers (extents are
non-negative), element buffers as total functions, and element values of
the data, updates and output tensors as integers: the specification
declares the atomic floating-point accumulation of the backward kernel to
be an exact commutative reduction, which integer addition realises.
The device kernels themselves (`ComputeSliceOffsetsImpl`, `GatherNDImpl`,
`GatherNDGradImpl`) live in `gather_nd_impl.cu`, which is not among the
sources; their definitions below are modelled from the specification and
are marked as such.
-/

namespace Ort

/-- A tensor shape: one non-negative extent per axis. -/
abbrev Shape := List Nat

/-- The error kinds surfaced by the validation code (the
`ORT_RETURN_IF_NOT` and `ORT_MAKE_STATUS` sites of the two compute
functions and of `CheckBatchDimensionsMatch`). -/
inductive Err where
  | RankTooSmall (batchDims rank tensorIdx : Nat)
  | BatchMismatch (axis v₁ v₂ tensorIdx : Nat)
  | EmptyIndices
  | IndexDepthExceedsRank
  | GradientUnsupported
  deriving DecidableEq

/-- First loop of `CheckBatchDimensionsMatch` (gather_nd.cc:14-22): every
shape, the first included, must have rank at least
`num_batch_dimensions`; `idx` tracks `tensor_shape_idx`. -/
def checkRanksFrom (b idx : Nat) : List Shape → Except Err Unit
  | [] => Except.ok ()
  | s :: rest =>
    if b ≤ s.length then checkRanksFrom b (idx + 1) rest
    else Except.error (Err.RankTooSmall b s.length idx)

/-- Inner loop of gather_nd.cc:28-35, for one batch axis: compare the
first shape against each later shape at `axis`; `idx` tracks
`tensor_shape_idx`, starting from 1. -/
def checkAxisFrom (first : Shape) (axis idx : Nat) : List Shape → Except Err Unit
  | [] => Except.ok ()
  | s :: rest =>
    if first.getD axis 0 = s.getD axis 0 then checkAxisFrom first axis (idx + 1) rest
    else Except.error (Err.BatchMismatch axis (first.getD axis 0) (s.getD axis 0) idx)

/-- Outer loop of gather_nd.cc:27-36: `n` batch axes remain to be
checked, the next being `axis`. -/
def checkAxesFrom (first : Shape) (rest : List Shape) : Nat → Nat → Except Err Unit
  | 0, _ => Except.ok ()
  | n + 1, axis =>
    match checkAxisFrom first axis 1 rest with
    | Except.ok () => checkAxesFrom first rest n (axis + 1)
    | Except.error e => Except.error e

/-- `CheckBatchDimensionsMatch` (gather_nd.cc:11-39): first the rank
check over all shapes, then the early return for an empty list, then the
axis-major mismatch scan. -/
def CheckBatchDimensionsMatch (b : Nat) (shapes : List Shape) : Except Err Unit :=
  match checkRanksFrom b 0 shapes with
  | Except.error e => Except.error e
  | Except.ok () =>
    match shapes with
    | [] => Except.ok ()
    | first :: rest => checkAxesFrom first rest b 0

/-- The scalar quantities computed at the top of
`GatherNDBase::CommonComputeKernel` (gather_nd.cc:80-85). -/
structure KernelParams where
  num_slice_dims : Nat
  num_slices : Nat
  slice_size : Nat
  num_batches : Nat
  input_batch_stride : Nat
  num_slices_per_batch : Nat

/-- gather_nd.cc:80-85.  `num_slices_per_batch` is the unguarded integer
division `num_slices / num_batches`; Lean division by zero is total
(with value 0) where the C++ division by zero is undefined, and no
divisibility is checked in either. -/
def kernelParams (batch_dims : Nat) (input_shape indices_shape : Shape) : KernelParams :=
  let num_slice_dims := indices_shape.getLastD 0
  { num_slice_dims := num_slice_dims
    num_slices := indices_shape.dropLast.prod
    slice_size := (input_shape.drop (batch_dims + num_slice_dims)).prod
    num_batches := (input_shape.take batch_dims).prod
    input_batch_stride := (input_shape.drop batch_dims).prod
    num_slices_per_batch := indices_shape.dropLast.prod / (input_shape.take batch_dims).prod }

/-- The loop of gather_nd.cc:92-98 walks the slice axes right to left,
emitting the current running product and then multiplying the extent of
the axis into it; this helper consumes the axes already reversed. -/
def buildSizesRev : List Nat → Nat → List Nat
  | [], _ => []
  | d :: ds, running_product => running_product :: buildSizesRev ds (running_product * d)

/-- `sizes_from_slice_dims` (gather_nd.cc:91-98): the right-to-left
running product over the slice axes, seeded with `slice_size`. -/
def sizesFromSliceDims (slice_dims : List Nat) (slice_size : Nat) : List Nat :=
  (buildSizesRev slice_dims.reverse slice_size).reverse

/-- Sum of index component times stride over an index tuple (components
are signed and used unwrapped, per §4.2 of the specification). -/
def dotProd : List Int → List Nat → Int
  | c :: cs, d :: ds => c * (d : Int) + dotProd cs ds
  | _, _ => 0

/-- Row-major mixed-radix value of a digit list under the given radices. -/
def radixVal : List Nat → List Nat → Nat
  | c :: cs, _ :: ds => c * ds.prod + radixVal cs ds
  | _, _ => 0

/-- The `k` index components of slice `s`, read from the flat indices
buffer (`indices_data`, gather_nd.cc:87). -/
def indexTuple (indices : Nat → Int) (k s : Nat) : List Int :=
  (List.range k).map fun j => indices (s * k + j)

/-- Modelled from the spec: `ComputeSliceOffsetsImpl` lives in
`gather_nd_impl.cu`, which is not among the sources.  Per §4.2, slice `s`
receives the flat offset `(s / num_slices_per_batch) * batch_stride` plus
the stride-weighted sum of its (signed, unwrapped) index components. -/
def sliceOffset (num_slices_per_batch batch_stride : Nat) (strides : List Nat)
    (tuple : List Int) (s : Nat) : Int :=
  ((s / num_slices_per_batch * batch_stride : Nat) : Int) + dotProd tuple strides

/-- The offsets table produced by the `ComputeSliceOffsetsImpl` call in
`CommonComputeKernel` (gather_nd.cc:111-120), using the stride table of
gather_nd.cc:91-98. -/
def sliceOffsets (batch_dims : Nat) (input_shape indices_shape : Shape)
    (indices : Nat → Int) : Nat → Int :=
  fun s => sliceOffset
    (kernelParams batch_dims input_shape indices_shape).num_slices_per_batch
    (kernelParams batch_dims input_shape indices_shape).input_batch_stride
    (sizesFromSliceDims
      ((input_shape.drop batch_dims).take
        (kernelParams batch_dims input_shape indices_shape).num_slice_dims)
      (kernelParams batch_dims input_shape indices_shape).slice_size)
    (indexTuple indices
      (kernelParams batch_dims input_shape indices_shape).num_slice_dims s) s

/-- Modelled from the spec: `GatherNDImpl` (gather_nd_impl.cu) per §4.4
copies, for every slice `s`, `slice_size` contiguous elements starting at
`source[offsets[s]]` into `output[s * slice_size]`; output position `p`
belongs to slice `p / slice_size`, element `p % slice_size`. -/
def gatherNDImpl (slice_size : Nat) (source : Int → Int) (offsets : Nat → Int) :
    Nat → Int :=
  fun p => source (offsets (p / slice_size) + ((p % slice_size : Nat) : Int))

/-- One atomic addition of the backward kernel: element `e` of update
slice `s` is added into the destination at `offsets[s] + e`. -/
def scatterOp (slice_size : Nat) (updates : Nat → Int) (offsets : Nat → Int)
    (dest : Int → Int) (op : Nat × Nat) : Int → Int :=
  fun q =>
    if q = offsets op.1 + (op.2 : Int) then dest q + updates (op.1 * slice_size + op.2)
    else dest q

/-- Running the additions of the backward kernel in a given order. -/
def scatterRun (ops : List (Nat × Nat)) (slice_size : Nat) (updates : Nat → Int)
    (offsets : Nat → Int) (dest : Int → Int) : Int → Int :=
  ops.foldl (scatterOp slice_size updates offsets) dest

/-- The iteration space of the backward kernel: every slice index paired
with every element position. -/
def opList (num_slices slice_size : Nat) : List (Nat × Nat) :=
  (List.range num_slices) ×ˢ (List.range slice_size)

/-- Modelled from the spec: `GatherNDGradImpl` (gather_nd_impl.cu) per
§4.5 atomically adds every update element into the destination; the
canonical order stands for the (order-independent) parallel execution. -/
def gatherNDGradImpl (num_slices slice_size : Nat) (updates : Nat → Int)
    (offsets : Nat → Int) (dest : Int → Int) : Int → Int :=
  scatterRun (opList num_slices slice_size) slice_size updates offsets dest

/-- The status produced inside `ComputeImpl::operator()`
(gather_nd.cc:41-65): the backward branch compiled without
`ENABLE_TRAINING` builds an INVALID_ARGUMENT status
(gather_nd.cc:60-61). -/
def computeImplStatus (fwd training : Bool) : Except Err Unit :=
  if fwd then Except.ok ()
  else if training then Except.ok ()
  else Except.error Err.GradientUnsupported

/-- gather_nd.cc:122-125: the outcome of the dispatched functor is
discarded (`t_disp.Invoke` is not assigned, and the functor is declared
`void`), and `CommonComputeKernel` then returns `Status::OK()`
unconditionally. -/
def commonComputeStatus (fwd training : Bool) : Except Err Unit :=
  match computeImplStatus fwd training with
  | _ => Except.ok ()

/-- Output buffer of the forward path (`CommonComputeKernel` with
`fwd = true`). -/
def gatherOutput (batch_dims : Nat) (input_shape : Shape) (input : Int → Int)
    (indices_shape : Shape) (indices : Nat → Int) : Nat → Int :=
  gatherNDImpl (kernelParams batch_dims input_shape indices_shape).slice_size input
    (sliceOffsets batch_dims input_shape indices_shape indices)

/-- Output buffer of the backward path: zero-initialised by the memset in
`GatherNDGrad<TIndex>::ComputeInternal` and then accumulated into by
`GatherNDGradImpl`; in a build without `ENABLE_TRAINING` the kernel call
is compiled out, so the buffer stays zero. -/
def gatherGradOutput (training : Bool) (batch_dims : Nat) (input_shape : Shape)
    (indices_shape : Shape) (indices : Nat → Int) (updates : Nat → Int) : Int → Int :=
  if training then
    gatherNDGradImpl (kernelParams batch_dims input_shape indices_shape).num_slices
      (kernelParams batch_dims input_shape indices_shape).slice_size updates
      (sliceOffsets batch_dims input_shape indices_shape indices) (fun _ => 0)
  else fun _ => 0

/-- The validation sequence of `GatherND<TIndex>::ComputeInternal`
(gather_nd.cc:156-168): indices rank, index depth, batch match. -/
def gatherNDValidate (batch_dims : Nat) (input_shape indices_shape : Shape) :
    Except Err Unit :=
  if indices_shape.length = 0 then Except.error Err.EmptyIndices
  else if input_shape.length < batch_dims + indices_shape.getLastD 0 then
    Except.error Err.IndexDepthExceedsRank
  else CheckBatchDimensionsMatch batch_dims [input_shape, indices_shape]

/-- The output shape construction of gather_nd.cc:171-172: the indices
dims without the last, then the input dims from `last_indices_dimension`
on. -/
def gatherNDOutputShape (batch_dims : Nat) (input_shape indices_shape : Shape) : Shape :=
  indices_shape.dropLast ++ input_shape.drop (batch_dims + indices_shape.getLastD 0)

/-- `GatherND<TIndex>::ComputeInternal` (gather_nd.cc:146-180): validate,
build the output shape, run `CommonComputeKernel` with `fwd = true`. -/
def gatherND (batch_dims : Nat) (input_shape : Shape) (input : Int → Int)
    (indices_shape : Shape) (indices : Nat → Int) :
    Except Err (Shape × (Nat → Int)) :=
  match gatherNDValidate batch_dims input_shape indices_shape with
  | Except.error e => Except.error e
  | Except.ok () =>
    Except.ok (gatherNDOutputShape batch_dims input_shape indices_shape,
      gatherOutput batch_dims input_shape input indices_shape indices)

/-- Validation sequence of `GatherNDGrad<TIndex>::ComputeInternal`
(gather_nd_grad.cc): indices rank, index depth against the supplied
target shape, batch match over target, indices and updates shapes. -/
def gatherNDGradValidate (batch_dims : Nat)
    (input_shape indices_shape update_shape : Shape) : Except Err Unit :=
  if indices_shape.length = 0 then Except.error Err.EmptyIndices
  else if input_shape.length < batch_dims + indices_shape.getLastD 0 then
    Except.error Err.IndexDepthExceedsRank
  else CheckBatchDimensionsMatch batch_dims [input_shape, indices_shape, update_shape]

/-- `GatherNDGrad<TIndex>::ComputeInternal` (gather_nd_grad.cc): validate,
zero-initialise the output at the supplied target shape, run
`CommonComputeKernel` with `fwd = false` and return its status (which is
`Status::OK()` regardless of the training flag, see
`commonComputeStatus`). -/
def gatherNDGrad (training : Bool) (batch_dims : Nat) (input_shape : Shape)
    (indices_shape : Shape) (indices : Nat → Int)
    (update_shape : Shape) (updates : Nat → Int) : Except Err (Int → Int) :=
  match gatherNDGradValidate batch_dims input_shape indices_shape update_shape with
  | Except.error e => Except.error e
  | Except.ok () =>
    match commonComputeStatus false training with
    | Except.error e => Except.error e
    | Except.ok () =>
      Except.ok (gatherGradOutput training batch_dims input_shape indices_shape
        indices updates)

/-! ### Basic facts about the batch-dimension validation loops -/

lemma checkRanksFrom_ok_iff (b idx : Nat) (l : List Shape) :
    checkRanksFrom b idx l = Except.ok () ↔ ∀ s ∈ l, b ≤ s.length := by
  induction l generalizing idx with
  | nil => simp [checkRanksFrom]
  | cons s rest ih =>
    unfold checkRanksFrom
    by_cases h : b ≤ s.length
    · simp [h, ih (idx + 1)]
    · simp [h]

lemma checkAxisFrom_ok_iff (first : Shape) (axis idx : Nat) (l : List Shape) :
    checkAxisFrom first axis idx l = Except.ok () ↔
      ∀ s ∈ l, first.getD axis 0 = s.getD axis 0 := by
  induction l generalizing idx with
  | nil => simp [checkAxisFrom]
  | cons s rest ih =>
    unfold checkAxisFrom
    by_cases h : first.getD axis 0 = s.getD axis 0
    · rw [if_pos h, ih (idx + 1)]
      constructor
      · intro hr t ht
        rcases List.mem_cons.mp ht with rfl | ht
        · exact h
        · exact hr t ht
      · intro hr t ht
        exact hr t (List.mem_cons_of_mem s ht)
    · rw [if_neg h]
      constructor
      · intro hcon
        exact absurd hcon (by simp)
      · intro hr
        exact absurd (hr s (by simp)) h

lemma checkAxesFrom_ok_iff (first : Shape) (rest : List Shape) (n axis : Nat) :
    checkAxesFrom first rest n axis = Except.ok () ↔
      ∀ m < n, ∀ s ∈ rest, first.getD (axis + m) 0 = s.getD (axis + m) 0 := by
  induction n generalizing axis with
  | zero => simp [checkAxesFrom]
  | succ n ih =>
    unfold checkAxesFrom
    cases hx : checkAxisFrom first axis 1 rest with
    | error e =>
      constructor
      · intro h
        exact absurd h (by simp)
      · intro h
        have h0 : ∀ s ∈ rest, first.getD axis 0 = s.getD axis 0 := by
          intro s hs
          have := h 0 (Nat.succ_pos n) s hs
          rwa [Nat.add_zero] at this
        rw [← checkAxisFrom_ok_iff first axis 1 rest] at h0
        rw [hx] at h0
        exact absurd h0 (by simp)
    | ok u =>
      cases u
      rw [ih (axis + 1)]
      rw [checkAxisFrom_ok_iff] at hx
      constructor
      · intro h m hm s hs
        cases m with
        | zero => simpa using hx s hs
        | succ m =>
          have hmn : m < n := Nat.lt_of_succ_lt_succ hm
          have := h m hmn s hs
          have harith : axis + 1 + m = axis + (m + 1) := by omega
          rwa [harith] at this
      · intro h m hm s hs
        have := h (m + 1) (Nat.succ_lt_succ hm) s hs
        have harith : axis + (m + 1) = axis + 1 + m := by omega
        rwa [harith] at this

lemma checkAxesFrom_nil (first : Shape) (n axis : Nat) :
    checkAxesFrom first [] n axis = Except.ok () := by
  rw [checkAxesFrom_ok_iff]
  intro m _ s hs
  exact absurd hs (by simp)

lemma CheckBatchDimensionsMatch_ok_iff (b : Nat) (first : Shape) (rest : List Shape) :
    CheckBatchDimensionsMatch b (first :: rest) = Except.ok () ↔
      (∀ s ∈ first :: rest, b ≤ s.length)
        ∧ ∀ i < b, ∀ s ∈ rest, first.getD i 0 = s.getD i 0 := by
  unfold CheckBatchDimensionsMatch
  cases hr : checkRanksFrom b 0 (first :: rest) with
  | error e =>
    constructor
    · intro h
      exact absurd h (by simp)
    · intro h
      rw [← checkRanksFrom_ok_iff b 0] at h
      rw [hr] at h
      exact absurd h.1 (by simp)
  | ok u =>
    cases u
    rw [checkAxesFrom_ok_iff]
    rw [checkRanksFrom_ok_iff] at hr
    constructor
    · intro h
      exact ⟨hr, fun i hi s hs => by simpa using h i hi s hs⟩
    · intro h i hi s hs
      simpa using h.2 i hi s hs

/-- Every error of `checkRanksFrom` is a `RankTooSmall`. -/
lemma checkRanksFrom_error_shape (b idx : Nat) (l : List Shape) (e : Err)
    (h : checkRanksFrom b idx l = Except.error e) :
    ∃ bd r t, e = Err.RankTooSmall bd r t := by
  induction l generalizing idx with
  | nil => exact absurd h (by simp [checkRanksFrom])
  | cons s rest ih =>
    unfold checkRanksFrom at h
    by_cases hb : b ≤ s.length
    · rw [if_pos hb] at h
      exact ih (idx + 1) h
    · rw [if_neg hb] at h
      exact ⟨b, s.length, idx, by injection h with h; exact h.symm⟩

/-- Every error of `checkAxisFrom` is a `BatchMismatch`. -/
lemma checkAxisFrom_error_shape (first : Shape) (axis idx : Nat) (l : List Shape) (e : Err)
    (h : checkAxisFrom first axis idx l = Except.error e) :
    ∃ a v₁ v₂ t, e = Err.BatchMismatch a v₁ v₂ t := by
  induction l generalizing idx with
  | nil => exact absurd h (by simp [checkAxisFrom])
  | cons s rest ih =>
    unfold checkAxisFrom at h
    by_cases hb : first.getD axis 0 = s.getD axis 0
    · rw [if_pos hb] at h
      exact ih (idx + 1) h
    · rw [if_neg hb] at h
      exact ⟨axis, first.getD axis 0, s.getD axis 0, idx, by injection h with h; exact h.symm⟩

/-- Every error of `checkAxesFrom` is a `BatchMismatch`. -/
lemma checkAxesFrom_error_shape (first : Shape) (rest : List Shape) (n axis : Nat) (e : Err)
    (h : checkAxesFrom first rest n axis = Except.error e) :
    ∃ a v₁ v₂ t, e = Err.BatchMismatch a v₁ v₂ t := by
  induction n generalizing axis with
  | zero => exact absurd h (by simp [checkAxesFrom])
  | succ n ih =>
    unfold checkAxesFrom at h
    cases hx : checkAxisFrom first axis 1 rest with
    | error e' =>
      rw [hx] at h
      injection h with h
      exact h ▸ checkAxisFrom_error_shape first axis 1 rest e' hx
    | ok u =>
      cases u
      rw [hx] at h
      exact ih (axis + 1) h

/-- Every error of `CheckBatchDimensionsMatch` is a `RankTooSmall` or a
`BatchMismatch`; in particular it never produces `EmptyIndices`,
`IndexDepthExceedsRank` or `GradientUnsupported`. -/
lemma CheckBatchDimensionsMatch_error_shape (b : Nat) (l : List Shape) (e : Err)
    (h : CheckBatchDimensionsMatch b l = Except.error e) :
    (∃ bd r t, e = Err.RankTooSmall bd r t) ∨ (∃ a v₁ v₂ t, e = Err.BatchMismatch a v₁ v₂ t) := by
  unfold CheckBatchDimensionsMatch at h
  cases hr : checkRanksFrom b 0 l with
  | error e' =>
    rw [hr] at h
    injection h with h
    exact Or.inl (h ▸ checkRanksFrom_error_shape b 0 l e' hr)
  | ok u =>
    cases u
    rw [hr] at h
    cases l with
    | nil => exact absurd h (by simp)
    | cons first rest => exact Or.inr (checkAxesFrom_error_shape first rest b 0 e h)

/-! ### Claim theorems: simple validation claims -/

/-- C8, counterexample: the claim says the batch-dimension validation
succeeds for a single shape of any rank, but `CheckBatchDimensionsMatch`
runs its rank loop over all shapes before the fewer-than-two early
return, so a single rank-0 shape with one batch dimension fails. -/
theorem C8_counterexample :
    CheckBatchDimensionsMatch 1 [([] : Shape)] =
      Except.error (Err.RankTooSmall 1 0 0) := rfl

/-- C8, amended: the validation succeeds on an empty shape list and on a
single shape whose rank is at least `num_batch_dims`; a single shape of
smaller rank fails with `RankTooSmall`. -/
theorem C8_fewer_than_two_shapes (b : Nat) (s : Shape) :
    CheckBatchDimensionsMatch b [] = Except.ok ()
      ∧ (b ≤ s.length → CheckBatchDimensionsMatch b [s] = Except.ok ())
      ∧ (s.length < b →
          CheckBatchDimensionsMatch b [s] = Except.error (Err.RankTooSmall b s.length 0)) := by
  refine ⟨rfl, ?_, ?_⟩
  · intro h
    unfold CheckBatchDimensionsMatch checkRanksFrom
    rw [if_pos h]
    exact checkAxesFrom_nil s b 0
  · intro h
    unfold CheckBatchDimensionsMatch checkRanksFrom
    rw [if_neg (by omega)]

/-- C8, witness: a single rank-1 shape passes with one batch dimension
and fails with two. -/
theorem C8_witness :
    CheckBatchDimensionsMatch 1 [[3]] = Except.ok ()
      ∧ CheckBatchDimensionsMatch 2 [[3]] = Except.error (Err.RankTooSmall 2 1 0) :=
  ⟨(C8_fewer_than_two_shapes 1 [3]).2.1 (by simp),
    (C8_fewer_than_two_shapes 2 [3]).2.2 (by simp)⟩

/-- C7: with training disabled, the backward functor body builds the
GradientUnsupported status (gather_nd.cc:60-61), but
`CommonComputeKernel` discards the dispatched functor result and returns
`Status::OK()` (gather_nd.cc:124-125), so a shape-valid `GatherNDGrad`
invocation reports success to the caller rather than the error. -/
theorem C7_gradient_status_discarded :
    computeImplStatus false false = Except.error Err.GradientUnsupported
      ∧ commonComputeStatus false false = Except.ok ()
      ∧ gatherNDGrad false 0 [2, 2] [2, 1] (fun _ => 0) [2, 2] (fun _ => 0)
          = Except.ok (gatherGradOutput false 0 [2, 2] [2, 1] (fun _ => 0) (fun _ => 0)) :=
  ⟨rfl, rfl, rfl⟩

/-- C10: `num_batches` is the product of the first `batch_dims` extents
of the target shape, so any zero extent in the batch prefix makes the
divisor of `num_slices / num_batches` zero, and the forward validation
accepts such shapes (no guard exists; in C++ the division is then
undefined behaviour, while this model uses the total Lean division). -/
theorem C10_zero_batch_divisor :
    (∀ (input_shape indices_shape : Shape) (b : Nat), 0 ∈ input_shape.take b →
        (kernelParams b input_shape indices_shape).num_batches = 0)
      ∧ ∃ (b : Nat) (input_shape indices_shape : Shape),
          gatherNDValidate b input_shape indices_shape = Except.ok ()
            ∧ 0 ∈ input_shape.take b
            ∧ (kernelParams b input_shape indices_shape).num_batches = 0 := by
  constructor
  · intro is ids b h
    exact List.prod_eq_zero h
  · exact ⟨1, [0, 2], [0, 1], rfl, by simp, rfl⟩

/-- C10, witness: shape `[0, 2]` with one batch dimension yields a zero
`num_batches`. -/
theorem C10_witness :
    (kernelParams 1 [0, 2] [0, 1]).num_batches = 0 :=
  C10_zero_batch_divisor.1 [0, 2] [0, 1] 1 (by simp)

/-- C2: whenever the forward operation succeeds, the shape of its output
is the indices shape without its last axis followed by the target-shape
axes from `batch_dims + k` on, where `k` is the extent of the last
indices axis. -/
theorem C2_forward_output_shape (b : Nat) (is ids : Shape) (input : Int → Int)
    (ix : Nat → Int) (os : Shape) (out : Nat → Int)
    (h : gatherND b is input ids ix = Except.ok (os, out)) :
    os = ids.take (ids.length - 1) ++ is.drop (b + ids.getLastD 0) := by
  unfold gatherND at h
  cases hv : gatherNDValidate b is ids with
  | error e =>
    rw [hv] at h
    exact absurd h (by simp)
  | ok u =>
    cases u
    rw [hv] at h
    injection h with h
    have hos : os = gatherNDOutputShape b is ids := (congrArg Prod.fst h).symm
    rw [hos]
    unfold gatherNDOutputShape
    rw [List.dropLast_eq_take]

/-- C2, witness: the concrete example of the specification, target shape
`[2, 2]`, indices shape `[2, 1]`, `batch_dims = 0`. -/
theorem C2_witness :
    gatherNDOutputShape 0 [2, 2] [2, 1] =
      ([2, 1] : Shape).take 1 ++ ([2, 2] : Shape).drop 1 :=
  C2_forward_output_shape 0 [2, 2] [2, 1] (fun _ => 0) (fun _ => 0) _ _ rfl

lemma getD_take_of_lt (l : List Nat) (b m : Nat) (h : m < b) :
    (l.take b).getD m 0 = l.getD m 0 := by
  simp [List.getD, List.getElem?_take_of_lt h]

/-- C9: the gradient path validates the updates shape only through the
batch-dimension check: if validation succeeds for some updates shape,
then it succeeds for every updates shape of rank at least `batch_dims`
whose first `batch_dims` extents agree with the target shape, whatever
its remaining axes are (no comparison against the forward output shape
is performed). -/
theorem C9_updates_validated_only_by_batch (b : Nat) (is ids u₀ u : Shape)
    (h₀ : gatherNDGradValidate b is ids u₀ = Except.ok ())
    (hrank : b ≤ u.length)
    (hpre : u.take b = is.take b) :
    gatherNDGradValidate b is ids u = Except.ok () := by
  unfold gatherNDGradValidate at h₀ ⊢
  by_cases h1 : ids.length = 0
  · rw [if_pos h1] at h₀
    exact absurd h₀ (by simp)
  · rw [if_neg h1] at h₀ ⊢
    by_cases h2 : is.length < b + ids.getLastD 0
    · rw [if_pos h2] at h₀
      exact absurd h₀ (by simp)
    · rw [if_neg h2] at h₀ ⊢
      rw [CheckBatchDimensionsMatch_ok_iff] at h₀ ⊢
      obtain ⟨hranks, haxes⟩ := h₀
      constructor
      · intro s hs
        simp only [List.mem_cons, List.not_mem_nil, or_false] at hs
        rcases hs with rfl | rfl | rfl
        · exact hranks s (by simp)
        · exact hranks s (by simp)
        · exact hrank
      · intro i hi s hs
        simp only [List.mem_cons, List.not_mem_nil, or_false] at hs
        rcases hs with rfl | rfl
        · exact haxes i hi s (by simp)
        · have hgd := congrArg (fun l => List.getD l i 0) hpre
          simp only [getD_take_of_lt _ _ _ hi] at hgd
          exact hgd.symm

/-- C9, witness: with one batch dimension, target `[2, 3]` and indices
`[2, 1]`, the updates shape `[2, 99, 4]` (which is not the forward
output shape `[2]`) passes the gradient validation. -/
theorem C9_witness :
    gatherNDGradValidate 1 [2, 3] [2, 1] [2, 99, 4] = Except.ok () :=
  C9_updates_validated_only_by_batch 1 [2, 3] [2, 1] [2] [2, 99, 4] rfl
    (by simp) (by simp)

/-- C5: the forward operation fails with `EmptyIndices` exactly when the
indices tensor has rank 0, and for indices of positive rank it fails
with `IndexDepthExceedsRank` exactly when `batch_dims` plus the extent
of the last indices axis exceeds the rank of the data tensor.  Both
conditions are decided by `gatherNDValidate`, which runs before the
kernel stage of `gatherND`, so a failure produces no output buffer. -/
theorem C5_forward_error_conditions (b : Nat) (is ids : Shape) (input : Int → Int)
    (ix : Nat → Int) :
    (gatherND b is input ids ix = Except.error Err.EmptyIndices ↔ ids.length = 0)
      ∧ (ids.length ≠ 0 →
          (gatherND b is input ids ix = Except.error Err.IndexDepthExceedsRank
            ↔ is.length < b + ids.getLastD 0)) := by
  unfold gatherND gatherNDValidate
  by_cases h1 : ids.length = 0
  · rw [if_pos h1]
    exact ⟨by simp [h1], fun h => absurd h1 h⟩
  · rw [if_neg h1]
    by_cases h2 : is.length < b + ids.getLastD 0
    · rw [if_pos h2]
      exact ⟨iff_of_false (by simp) h1, fun _ => iff_of_true rfl h2⟩
    · rw [if_neg h2]
      cases hc : CheckBatchDimensionsMatch b [is, ids] with
      | ok u =>
        cases u
        exact ⟨iff_of_false (by simp) h1, fun _ => iff_of_false (by simp) h2⟩
      | error e =>
        constructor
        · rcases CheckBatchDimensionsMatch_error_shape b [is, ids] e hc with
            ⟨bd, r, t, rfl⟩ | ⟨a, v₁, v₂, t, rfl⟩ <;> exact iff_of_false (by simp) h1
        · intro _
          rcases CheckBatchDimensionsMatch_error_shape b [is, ids] e hc with
            ⟨bd, r, t, rfl⟩ | ⟨a, v₁, v₂, t, rfl⟩ <;> exact iff_of_false (by simp) h2

/-- C5, witness: the error example of the specification, data of rank 2
with indices last-axis extent 3 and `batch_dims = 0`, fails with
`IndexDepthExceedsRank`. -/
theorem C5_witness :
    ([3] : Shape).length ≠ 0
      ∧ gatherND 0 [5, 7] (fun _ => 0) [3] (fun _ => 0)
          = Except.error Err.IndexDepthExceedsRank :=
  ⟨by simp,
    ((C5_forward_error_conditions 0 [5, 7] [3] (fun _ => 0) (fun _ => 0)).2
      (by simp)).mpr (by simp)⟩

/-! ### The stride table -/

lemma buildSizesRev_append (xs : List Nat) (d r : Nat) :
    buildSizesRev (xs ++ [d]) r = buildSizesRev xs r ++ [r * xs.prod] := by
  induction xs generalizing r with
  | nil => simp [buildSizesRev]
  | cons x xs ih =>
    simp only [List.cons_append, buildSizesRev, List.append_eq]
    rw [ih (r * x)]
    simp [Nat.mul_assoc]

lemma sizesFromSliceDims_cons (d : Nat) (ds : List Nat) (ss : Nat) :
    sizesFromSliceDims (d :: ds) ss = (ss * ds.prod) :: sizesFromSliceDims ds ss := by
  unfold sizesFromSliceDims
  rw [List.reverse_cons, buildSizesRev_append, List.reverse_append]
  simp [List.prod_reverse]

lemma sizesFromSliceDims_length (ds : List Nat) (ss : Nat) :
    (sizesFromSliceDims ds ss).length = ds.length := by
  induction ds with
  | nil => rfl
  | cons d ds ih => rw [sizesFromSliceDims_cons]; simp [ih]

lemma sizesFromSliceDims_getD (ds : List Nat) (ss : Nat) :
    ∀ j < ds.length, (sizesFromSliceDims ds ss).getD j 0 = ss * (ds.drop (j + 1)).prod := by
  induction ds with
  | nil => intro j hj; exact absurd hj (by simp)
  | cons d ds ih =>
    intro j hj
    rw [sizesFromSliceDims_cons]
    cases j with
    | zero => simp
    | succ j =>
      rw [List.getD_cons_succ, ih j (by simpa using hj), List.drop_succ_cons]

/-- C3: entry `j` of the stride table built by gather_nd.cc:91-98 (the
right-to-left running product seeded with the slice size of the kernel
parameters) equals the product of the target-shape extents strictly
after axis `batch_dims + j`. -/
theorem C3_stride_table (b : Nat) (is ids : Shape)
    (hbk : b + ids.getLastD 0 ≤ is.length) (j : Nat) (hj : j < ids.getLastD 0) :
    (sizesFromSliceDims ((is.drop b).take (ids.getLastD 0))
        (kernelParams b is ids).slice_size).getD j 0
      = (is.drop (b + j + 1)).prod := by
  set k := ids.getLastD 0 with hk
  have hlen : ((is.drop b).take k).length = k := by
    rw [List.length_take, List.length_drop]
    omega
  rw [sizesFromSliceDims_getD _ _ j (by rw [hlen]; exact hj)]
  have hslice : (kernelParams b is ids).slice_size = (is.drop (b + k)).prod := rfl
  have h1 : ((is.drop b).take k).drop (j + 1) = (is.drop (b + j + 1)).take (k - (j + 1)) := by
    rw [List.drop_take, List.drop_drop, (by omega : b + (j + 1) = b + j + 1)]
  have h2 : is.drop (b + j + 1)
      = (is.drop (b + j + 1)).take (k - (j + 1)) ++ is.drop (b + k) := by
    conv_lhs => rw [← List.take_append_drop (k - (j + 1)) (is.drop (b + j + 1))]
    rw [List.drop_drop]
    congr 2
    omega
  have h3 : (is.drop (b + j + 1)).prod
      = ((is.drop (b + j + 1)).take (k - (j + 1))).prod * (is.drop (b + k)).prod := by
    rw [← List.prod_append, ← h2]
  rw [hslice, h1, h3]
  exact Nat.mul_comm _ _

/-- C3, witness: target shape `[2, 3, 4, 5]`, one batch dimension, two
index coordinates; stride 0 is the product of the extents after axis 1. -/
theorem C3_witness :
    (sizesFromSliceDims ((([2, 3, 4, 5] : Shape).drop 1).take (([9, 2] : Shape).getLastD 0))
        (kernelParams 1 [2, 3, 4, 5] [9, 2]).slice_size).getD 0 0
      = (([2, 3, 4, 5] : Shape).drop (1 + 0 + 1)).prod :=
  C3_stride_table 1 [2, 3, 4, 5] [9, 2] (by simp) 0 (by simp)

/-! ### The scatter-accumulate kernel as a sum over hitting operations -/

lemma kernelParams_num_slice_dims (b : Nat) (is ids : Shape) :
    (kernelParams b is ids).num_slice_dims = ids.getLastD 0 := rfl

lemma kernelParams_num_slices (b : Nat) (is ids : Shape) :
    (kernelParams b is ids).num_slices = ids.dropLast.prod := rfl

lemma kernelParams_slice_size (b : Nat) (is ids : Shape) :
    (kernelParams b is ids).slice_size = (is.drop (b + ids.getLastD 0)).prod := rfl

lemma kernelParams_input_batch_stride (b : Nat) (is ids : Shape) :
    (kernelParams b is ids).input_batch_stride = (is.drop b).prod := rfl

lemma scatterRun_eq_sum (slice_size : Nat) (updates : Nat → Int) (offsets : Nat → Int)
    (ops : List (Nat × Nat)) (dest : Int → Int) (q : Int) :
    scatterRun ops slice_size updates offsets dest q
      = dest q + ((ops.filter fun op => decide (q = offsets op.1 + (op.2 : Int))).map
          fun op => updates (op.1 * slice_size + op.2)).sum := by
  induction ops generalizing dest with
  | nil => simp [scatterRun]
  | cons op ops ih =>
    show scatterRun ops slice_size updates offsets
      (scatterOp slice_size updates offsets dest op) q = _
    rw [ih]
    by_cases h : q = offsets op.1 + (op.2 : Int)
    · rw [List.filter_cons_of_pos (by simpa using h)]
      show (if q = offsets op.1 + (op.2 : Int) then
          dest q + updates (op.1 * slice_size + op.2) else dest q) + _ = _
      rw [if_pos h, List.map_cons, List.sum_cons]
      ring
    · rw [List.filter_cons_of_neg (by simpa using h)]
      show (if q = offsets op.1 + (op.2 : Int) then
          dest q + updates (op.1 * slice_size + op.2) else dest q) + _ = _
      rw [if_neg h]

lemma mem_opList (n ss : Nat) (op : Nat × Nat) :
    op ∈ opList n ss ↔ op.1 < n ∧ op.2 < ss := by
  obtain ⟨s, e⟩ := op
  simp [opList]

lemma opList_nodup (n ss : Nat) : (opList n ss).Nodup :=
  List.Nodup.product (List.nodup_range n) (List.nodup_range ss)

lemma nodup_all_eq_singleton {α : Type} (l : List α) (a : α) (hnd : l.Nodup)
    (hall : ∀ x ∈ l, x = a) (hmem : a ∈ l) : l = [a] := by
  cases l with
  | nil => exact absurd hmem (by simp)
  | cons x xs =>
    obtain rfl : x = a := hall x (by simp)
    cases xs with
    | nil => rfl
    | cons y ys =>
      have h1 : y = x := hall y (by simp)
      have h2 := (List.nodup_cons.mp hnd).1
      exact absurd (show x ∈ y :: ys by rw [h1]; simp) h2

lemma nodup_pair_perm {α : Type} (l : List α) (a b : α) (hab : a ≠ b)
    (hnd : l.Nodup) (hall : ∀ x ∈ l, x = a ∨ x = b) (ha : a ∈ l) (hb : b ∈ l) :
    l.Perm [a, b] := by
  cases l with
  | nil => exact absurd ha (by simp)
  | cons x xs =>
    have hxs_nd := (List.nodup_cons.mp hnd).2
    have hx_not := (List.nodup_cons.mp hnd).1
    rcases hall x (by simp) with hx | hx
    · subst hx
      have hbx : b ∈ xs := by
        rcases List.mem_cons.mp hb with h | h
        · exact absurd h.symm hab
        · exact h
      have hxs : xs = [b] := by
        refine nodup_all_eq_singleton xs b hxs_nd ?_ hbx
        intro y hy
        rcases hall y (List.mem_cons_of_mem _ hy) with h | h
        · exact absurd (h ▸ hy) hx_not
        · exact h
      rw [hxs]
    · subst hx
      have hax : a ∈ xs := by
        rcases List.mem_cons.mp ha with h | h
        · exact absurd h hab
        · exact h
      have hxs : xs = [a] := by
        refine nodup_all_eq_singleton xs a hxs_nd ?_ hax
        intro y hy
        rcases hall y (List.mem_cons_of_mem _ hy) with h | h
        · exact h
        · exact absurd (h ▸ hy) hx_not
      rw [hxs]
      exact List.Perm.swap _ _ []

/-! ### Mixed-radix arithmetic of the offset computation -/

lemma radixVal_lt (cs ds : List Nat) (h : List.Forall₂ (· < ·) cs ds) :
    radixVal cs ds < ds.prod := by
  induction h with
  | nil => exact Nat.zero_lt_one
  | cons hcd htail ih =>
    rename_i c d ct dt
    show c * dt.prod + radixVal ct dt < (d :: dt).prod
    rw [List.prod_cons]
    calc c * dt.prod + radixVal ct dt
        < c * dt.prod + dt.prod := Nat.add_lt_add_left ih _
      _ = (c + 1) * dt.prod := by ring
      _ ≤ d * dt.prod := Nat.mul_le_mul_right _ hcd

lemma radixVal_inj (ds : List Nat) : ∀ cs cs' : List Nat,
    List.Forall₂ (· < ·) cs ds → List.Forall₂ (· < ·) cs' ds →
    radixVal cs ds = radixVal cs' ds → cs = cs' := by
  induction ds with
  | nil =>
    intro cs cs' h h' _
    cases h
    cases h'
    rfl
  | cons d dt ih =>
    intro cs cs' h h' heq
    obtain ⟨c, ct, hc, htail, rfl⟩ := List.forall₂_cons_right_iff.mp h
    obtain ⟨c', ct', hc', htail', rfl⟩ := List.forall₂_cons_right_iff.mp h'
    simp only [radixVal] at heq
    have hr := radixVal_lt ct dt htail
    have hr' := radixVal_lt ct' dt htail'
    have hP : 0 < dt.prod := Nat.lt_of_le_of_lt (Nat.zero_le _) hr
    have hceq : c = c' := by
      have h1 := congrArg (· / dt.prod) heq
      simp only at h1
      rw [Nat.mul_comm c, Nat.mul_comm c', Nat.mul_add_div hP, Nat.mul_add_div hP,
        Nat.div_eq_of_lt hr, Nat.div_eq_of_lt hr'] at h1
      omega
    subst hceq
    have hrest : radixVal ct dt = radixVal ct' dt := by omega
    rw [ih ct ct' htail htail' hrest]

/-- The in-range relation between an index component and the extent of
the target axis it addresses. -/
def InRange (c : Int) (d : Nat) : Prop := 0 ≤ c ∧ c < (d : Int)

instance (c : Int) (d : Nat) : Decidable (InRange c d) :=
  inferInstanceAs (Decidable (0 ≤ c ∧ c < (d : Int)))

lemma toNat_forall₂_lt (cs : List Int) (ds : List Nat)
    (h : List.Forall₂ InRange cs ds) :
    List.Forall₂ (· < ·) (cs.map Int.toNat) ds := by
  induction h with
  | nil => exact List.Forall₂.nil
  | cons hcd htail ih =>
    rw [List.map_cons]
    exact List.Forall₂.cons ((Int.toNat_lt hcd.1).mpr hcd.2) ih

lemma map_toNat_inj (ds : List Nat) : ∀ cs cs' : List Int,
    List.Forall₂ InRange cs ds → List.Forall₂ InRange cs' ds →
    cs.map Int.toNat = cs'.map Int.toNat → cs = cs' := by
  induction ds with
  | nil =>
    intro cs cs' h h' _
    cases h
    cases h'
    rfl
  | cons d dt ih =>
    intro cs cs' h h' heq
    obtain ⟨c, ct, hc, htail, rfl⟩ := List.forall₂_cons_right_iff.mp h
    obtain ⟨c', ct', hc', htail', rfl⟩ := List.forall₂_cons_right_iff.mp h'
    rw [List.map_cons, List.map_cons] at heq
    have h1 : c.toNat = c'.toNat := by
      have := congrArg (fun l => List.getD l 0 (0 : Nat)) heq
      simpa using this
    have h2 : ct.map Int.toNat = ct'.map Int.toNat := by
      have := congrArg List.tail heq
      simpa using this
    have hcc : c = c' := by
      rw [← Int.toNat_of_nonneg hc.1, ← Int.toNat_of_nonneg hc'.1, h1]
    rw [hcc, ih ct ct' htail htail' h2]

lemma dotProd_sizes (ss : Nat) (cs : List Int) (ds : List Nat)
    (h : List.Forall₂ InRange cs ds) :
    dotProd cs (sizesFromSliceDims ds ss)
      = ((ss * radixVal (cs.map Int.toNat) ds : Nat) : Int) := by
  induction h with
  | nil => simp [dotProd, sizesFromSliceDims, buildSizesRev, radixVal]
  | cons hcd htail ih =>
    rename_i c d ct dt
    rw [sizesFromSliceDims_cons]
    simp only [dotProd, List.map_cons, radixVal]
    rw [ih]
    conv_lhs => rw [← Int.toNat_of_nonneg hcd.1]
    push_cast
    ring

/-! ### The slice offsets in closed form, and injectivity of addressing -/

lemma batch_stride_factor (b : Nat) (is ids : Shape) :
    (kernelParams b is ids).input_batch_stride
      = ((is.drop b).take (ids.getLastD 0)).prod * (kernelParams b is ids).slice_size := by
  rw [kernelParams_input_batch_stride, kernelParams_slice_size]
  conv_lhs => rw [← List.take_append_drop (ids.getLastD 0) (is.drop b)]
  rw [List.prod_append, List.drop_drop]

lemma sliceOffsets_eq (b : Nat) (is ids : Shape) (ix : Nat → Int) (s : Nat)
    (hv : List.Forall₂ InRange (indexTuple ix (ids.getLastD 0) s)
      ((is.drop b).take (ids.getLastD 0))) :
    sliceOffsets b is ids ix s
      = (((s / (kernelParams b is ids).num_slices_per_batch
              * ((is.drop b).take (ids.getLastD 0)).prod
            + radixVal ((indexTuple ix (ids.getLastD 0) s).map Int.toNat)
                ((is.drop b).take (ids.getLastD 0)))
          * (kernelParams b is ids).slice_size : Nat) : Int) := by
  simp only [sliceOffsets, sliceOffset, kernelParams_num_slice_dims]
  rw [dotProd_sizes _ _ _ hv, batch_stride_factor]
  push_cast
  ring

lemma addressing_inj (b : Nat) (is ids : Shape) (ix : Nat → Int)
    (hval : ∀ s < (kernelParams b is ids).num_slices,
      List.Forall₂ InRange (indexTuple ix (ids.getLastD 0) s)
        ((is.drop b).take (ids.getLastD 0)))
    (hnodup : ∀ s < (kernelParams b is ids).num_slices,
      ∀ t < (kernelParams b is ids).num_slices, s ≠ t →
        indexTuple ix (ids.getLastD 0) s ≠ indexTuple ix (ids.getLastD 0) t)
    (s t e f : Nat)
    (hs : s < (kernelParams b is ids).num_slices)
    (ht : t < (kernelParams b is ids).num_slices)
    (he : e < (kernelParams b is ids).slice_size)
    (hf : f < (kernelParams b is ids).slice_size)
    (heq : sliceOffsets b is ids ix s + (e : Int)
      = sliceOffsets b is ids ix t + (f : Int)) :
    s = t ∧ e = f := by
  rw [sliceOffsets_eq b is ids ix s (hval s hs),
    sliceOffsets_eq b is ids ix t (hval t ht)] at heq
  have heqN : (s / (kernelParams b is ids).num_slices_per_batch
          * ((is.drop b).take (ids.getLastD 0)).prod
        + radixVal ((indexTuple ix (ids.getLastD 0) s).map Int.toNat)
            ((is.drop b).take (ids.getLastD 0)))
        * (kernelParams b is ids).slice_size + e
      = (t / (kernelParams b is ids).num_slices_per_batch
          * ((is.drop b).take (ids.getLastD 0)).prod
        + radixVal ((indexTuple ix (ids.getLastD 0) t).map Int.toNat)
            ((is.drop b).take (ids.getLastD 0)))
        * (kernelParams b is ids).slice_size + f := by
    exact_mod_cast heq
  have hss : 0 < (kernelParams b is ids).slice_size :=
    Nat.lt_of_le_of_lt (Nat.zero_le e) he
  have hef : e = f := by
    have h1 := congrArg (· % (kernelParams b is ids).slice_size) heqN
    simp only at h1
    rwa [Nat.mul_add_mod', Nat.mul_add_mod', Nat.mod_eq_of_lt he,
      Nat.mod_eq_of_lt hf] at h1
  have hM := congrArg (· / (kernelParams b is ids).slice_size) heqN
  simp only at hM
  rw [Nat.mul_comm _ (kernelParams b is ids).slice_size,
    Nat.mul_comm _ (kernelParams b is ids).slice_size,
    Nat.mul_add_div hss, Nat.mul_add_div hss,
    Nat.div_eq_of_lt he, Nat.div_eq_of_lt hf, Nat.add_zero, Nat.add_zero] at hM
  have hLs := radixVal_lt _ _ (toNat_forall₂_lt _ _ (hval s hs))
  have hLt := radixVal_lt _ _ (toNat_forall₂_lt _ _ (hval t ht))
  have hL : radixVal ((indexTuple ix (ids.getLastD 0) s).map Int.toNat)
        ((is.drop b).take (ids.getLastD 0))
      = radixVal ((indexTuple ix (ids.getLastD 0) t).map Int.toNat)
        ((is.drop b).take (ids.getLastD 0)) := by
    have h3 := congrArg (· % ((is.drop b).take (ids.getLastD 0)).prod) hM
    simp only at h3
    rwa [Nat.mul_add_mod', Nat.mul_add_mod', Nat.mod_eq_of_lt hLs,
      Nat.mod_eq_of_lt hLt] at h3
  have htup : indexTuple ix (ids.getLastD 0) s = indexTuple ix (ids.getLastD 0) t :=
    map_toNat_inj _ _ _ (hval s hs) (hval t ht)
      (radixVal_inj _ _ _ (toNat_forall₂_lt _ _ (hval s hs))
        (toNat_forall₂_lt _ _ (hval t ht)) hL)
  have hst : s = t := by
    by_contra hne
    exact hnodup s hs t ht hne htup
  exact ⟨hst, hef⟩

lemma gatherOutput_at (b : Nat) (is ids : Shape) (data : Int → Int) (ix : Nat → Int)
    (s e : Nat) (he : e < (kernelParams b is ids).slice_size) :
    gatherOutput b is data ids ix (s * (kernelParams b is ids).slice_size + e)
      = data (sliceOffsets b is ids ix s + (e : Int)) := by
  have hss : 0 < (kernelParams b is ids).slice_size :=
    Nat.lt_of_le_of_lt (Nat.zero_le e) he
  unfold gatherOutput gatherNDImpl
  rw [Nat.mul_comm s, Nat.mul_add_div hss, Nat.div_eq_of_lt he, Nat.add_zero,
    Nat.mul_add_mod, Nat.mod_eq_of_lt he]

/-- C1: for in-range indices with no duplicate tuples, scatter-accumulating
the forward gather output (as updates) over the target shape reconstructs
the data at every element addressed by some slice and leaves every other
element zero.  The slice kernels are modelled from the specification
(`gather_nd_impl.cu` is not among the sources). -/
theorem C1_roundtrip (b : Nat) (is ids : Shape) (data : Int → Int) (ix : Nat → Int)
    (os : Shape) (up : Nat → Int) (grad : Int → Int)
    (hfwd : gatherND b is data ids ix = Except.ok (os, up))
    (hbwd : gatherNDGrad true b is ids ix os up = Except.ok grad)
    (hval : ∀ s < (kernelParams b is ids).num_slices,
      List.Forall₂ InRange (indexTuple ix (ids.getLastD 0) s)
        ((is.drop b).take (ids.getLastD 0)))
    (hnodup : ∀ s < (kernelParams b is ids).num_slices,
      ∀ t < (kernelParams b is ids).num_slices, s ≠ t →
        indexTuple ix (ids.getLastD 0) s ≠ indexTuple ix (ids.getLastD 0) t) :
    ∀ q : Int,
      ((∃ s < (kernelParams b is ids).num_slices,
          ∃ e < (kernelParams b is ids).slice_size,
            q = sliceOffsets b is ids ix s + (e : Int)) → grad q = data q)
      ∧ ((∀ s < (kernelParams b is ids).num_slices,
          ∀ e < (kernelParams b is ids).slice_size,
            q ≠ sliceOffsets b is ids ix s + (e : Int)) → grad q = 0) := by
  have hup : up = gatherOutput b is data ids ix := by
    unfold gatherND at hfwd
    cases hv : gatherNDValidate b is ids with
    | error e =>
      rw [hv] at hfwd
      exact absurd hfwd (by simp)
    | ok u =>
      cases u
      rw [hv] at hfwd
      injection hfwd with h
      exact (congrArg Prod.snd h).symm
  have hgrad : grad = gatherGradOutput true b is ids ix up := by
    unfold gatherNDGrad at hbwd
    cases hv : gatherNDGradValidate b is ids os with
    | error e =>
      rw [hv] at hbwd
      exact absurd hbwd (by simp)
    | ok u =>
      cases u
      rw [hv] at hbwd
      injection hbwd with h
      exact h.symm
  subst hup
  subst hgrad
  intro q
  have hgradq : gatherGradOutput true b is ids ix (gatherOutput b is data ids ix) q
      = (((opList (kernelParams b is ids).num_slices
            (kernelParams b is ids).slice_size).filter fun op =>
              decide (q = sliceOffsets b is ids ix op.1 + (op.2 : Int))).map
          fun op => gatherOutput b is data ids ix
            (op.1 * (kernelParams b is ids).slice_size + op.2)).sum := by
    show scatterRun (opList (kernelParams b is ids).num_slices
        (kernelParams b is ids).slice_size)
      (kernelParams b is ids).slice_size (gatherOutput b is data ids ix)
      (sliceOffsets b is ids ix) (fun _ => 0) q = _
    rw [scatterRun_eq_sum]
    simp
  constructor
  · rintro ⟨s, hs, e, he, rfl⟩
    have hfil : ((opList (kernelParams b is ids).num_slices
          (kernelParams b is ids).slice_size).filter fun op =>
            decide (sliceOffsets b is ids ix s + (e : Int)
              = sliceOffsets b is ids ix op.1 + (op.2 : Int))) = [(s, e)] := by
      apply nodup_all_eq_singleton _ _ (List.Nodup.filter _ (opList_nodup _ _))
      · intro x hx
        obtain ⟨hmem, hpred⟩ := List.mem_filter.mp hx
        obtain ⟨hx1, hx2⟩ := (mem_opList _ _ x).mp hmem
        have hq := of_decide_eq_true hpred
        have hinj := addressing_inj b is ids ix hval hnodup x.1 s x.2 e hx1 hs hx2 he
          hq.symm
        exact Prod.ext hinj.1 hinj.2
      · refine List.mem_filter.mpr ⟨(mem_opList _ _ (s, e)).mpr ⟨hs, he⟩, ?_⟩
        simp
    rw [hgradq, hfil]
    simp only [List.map_cons, List.map_nil, List.sum_cons, List.sum_nil, add_zero]
    exact gatherOutput_at b is ids data ix s e he
  · intro h
    have hfil : ((opList (kernelParams b is ids).num_slices
          (kernelParams b is ids).slice_size).filter fun op =>
            decide (q = sliceOffsets b is ids ix op.1 + (op.2 : Int))) = [] := by
      refine List.filter_eq_nil_iff.mpr ?_
      intro x hx
      obtain ⟨hx1, hx2⟩ := (mem_opList _ _ x).mp hx
      simp only [decide_eq_true_eq]
      exact h x.1 hx1 x.2 hx2
    rw [hgradq, hfil]
    simp

/-- C1, witness: data `[[0, 1], [2, 3]]` of shape `[2, 2]`, indices
`[[0], [1]]` of shape `[2, 1]`, `batch_dims = 0`; the round trip
reconstructs the element at flat position 1. -/
theorem C1_witness :
    gatherGradOutput true 0 [2, 2] [2, 1] (fun p => if p = 0 then 0 else 1)
        (gatherOutput 0 [2, 2] (fun q => q) [2, 1] (fun p => if p = 0 then 0 else 1)) 1
      = (1 : Int) :=
  (C1_roundtrip 0 [2, 2] [2, 1] (fun q => q) (fun p => if p = 0 then 0 else 1)
      _ _ _ rfl rfl (by decide) (by decide) 1).1
    ⟨0, by decide, 1, by decide, by decide⟩

/-- C4: if two distinct slices have equal destination offsets and no
other slice hits the element at offset `+ e`, the backward output there
is the sum of the two corresponding update elements, and the same value
results for every execution order (any permutation of the kernel's
iteration space).  The scatter kernel is modelled from the specification
(`gather_nd_impl.cu` is not among the sources). -/
theorem C4_duplicate_accumulation (b : Nat) (is ids : Shape) (ix : Nat → Int)
    (up : Nat → Int) (s₁ s₂ e : Nat)
    (hs₁ : s₁ < (kernelParams b is ids).num_slices)
    (hs₂ : s₂ < (kernelParams b is ids).num_slices)
    (hne : s₁ ≠ s₂)
    (hoff : sliceOffsets b is ids ix s₁ = sliceOffsets b is ids ix s₂)
    (he : e < (kernelParams b is ids).slice_size)
    (honly : ∀ t < (kernelParams b is ids).num_slices, t ≠ s₁ → t ≠ s₂ →
      ∀ f < (kernelParams b is ids).slice_size,
        sliceOffsets b is ids ix t + (f : Int)
          ≠ sliceOffsets b is ids ix s₁ + (e : Int)) :
    (∀ ops : List (Nat × Nat),
        ops.Perm (opList (kernelParams b is ids).num_slices
          (kernelParams b is ids).slice_size) →
        scatterRun ops (kernelParams b is ids).slice_size up (sliceOffsets b is ids ix)
            (fun _ => 0) (sliceOffsets b is ids ix s₁ + (e : Int))
          = up (s₁ * (kernelParams b is ids).slice_size + e)
            + up (s₂ * (kernelParams b is ids).slice_size + e))
      ∧ gatherGradOutput true b is ids ix up (sliceOffsets b is ids ix s₁ + (e : Int))
          = up (s₁ * (kernelParams b is ids).slice_size + e)
            + up (s₂ * (kernelParams b is ids).slice_size + e) := by
  have main : ∀ ops : List (Nat × Nat),
      ops.Perm (opList (kernelParams b is ids).num_slices
        (kernelParams b is ids).slice_size) →
      scatterRun ops (kernelParams b is ids).slice_size up (sliceOffsets b is ids ix)
          (fun _ => 0) (sliceOffsets b is ids ix s₁ + (e : Int))
        = up (s₁ * (kernelParams b is ids).slice_size + e)
          + up (s₂ * (kernelParams b is ids).slice_size + e) := by
    intro ops hperm
    rw [scatterRun_eq_sum]
    have hpair : ((opList (kernelParams b is ids).num_slices
          (kernelParams b is ids).slice_size).filter fun op =>
            decide (sliceOffsets b is ids ix s₁ + (e : Int)
              = sliceOffsets b is ids ix op.1 + (op.2 : Int))).Perm
        [(s₁, e), (s₂, e)] := by
      apply nodup_pair_perm _ _ _ (fun h => hne (congrArg Prod.fst h))
        (List.Nodup.filter _ (opList_nodup _ _))
      · intro x hx
        obtain ⟨hmem, hpred⟩ := List.mem_filter.mp hx
        obtain ⟨hx1, hx2⟩ := (mem_opList _ _ x).mp hmem
        have hqx := of_decide_eq_true hpred
        by_cases h1 : x.1 = s₁
        · rw [h1] at hqx
          have hxe : x.2 = e := by omega
          exact Or.inl (Prod.ext h1 hxe)
        · by_cases h2 : x.1 = s₂
          · rw [h2, ← hoff] at hqx
            have hxe : x.2 = e := by omega
            exact Or.inr (Prod.ext h2 hxe)
          · exact absurd hqx.symm (honly x.1 hx1 h1 h2 x.2 hx2)
      · refine List.mem_filter.mpr ⟨(mem_opList _ _ (s₁, e)).mpr ⟨hs₁, he⟩, ?_⟩
        simp
      · refine List.mem_filter.mpr ⟨(mem_opList _ _ (s₂, e)).mpr ⟨hs₂, he⟩, ?_⟩
        simp [hoff]
    have hcomb := (List.Perm.filter
      (fun op => decide (sliceOffsets b is ids ix s₁ + (e : Int)
        = sliceOffsets b is ids ix op.1 + (op.2 : Int))) hperm).trans hpair
    have hsum := (List.Perm.map
      (fun op : Nat × Nat => up (op.1 * (kernelParams b is ids).slice_size + op.2))
      hcomb).sum_eq
    rw [hsum]
    simp
  refine ⟨main, ?_⟩
  show scatterRun (opList (kernelParams b is ids).num_slices
      (kernelParams b is ids).slice_size)
    (kernelParams b is ids).slice_size up (sliceOffsets b is ids ix) (fun _ => 0)
    (sliceOffsets b is ids ix s₁ + (e : Int)) = _
  exact main _ (List.Perm.refl _)

/-- C4, witness: target shape `[4]`, indices shape `[2, 1]` with both
index tuples equal to `(1)`, updates `1` and `2`; the element at the
shared destination offset accumulates to `3`. -/
theorem C4_witness :
    gatherGradOutput true 0 [4] [2, 1] (fun _ => 1) (fun p => (p : Int) + 1)
        (sliceOffsets 0 [4] [2, 1] (fun _ => 1) 0 + ((0 : Nat) : Int))
      = 3 :=
  (C4_duplicate_accumulation 0 [4] [2, 1] (fun _ => 1) (fun p => (p : Int) + 1)
    0 1 0 (by decide) (by decide) (by decide) (by decide) (by decide) (by decide)).2

/-! ### Exact characterisation of the reported batch mismatch -/

lemma checkAxisFrom_error (first : Shape) (axis : Nat) :
    ∀ (idx : Nat) (l : List Shape) (e : Err),
    checkAxisFrom first axis idx l = Except.error e →
    ∃ j < l.length,
      e = Err.BatchMismatch axis (first.getD axis 0) ((l.getD j []).getD axis 0) (idx + j)
        ∧ first.getD axis 0 ≠ (l.getD j []).getD axis 0
        ∧ ∀ j' < j, first.getD axis 0 = (l.getD j' []).getD axis 0 := by
  intro idx l
  induction l generalizing idx with
  | nil =>
    intro e h
    exact absurd h (by simp [checkAxisFrom])
  | cons s rest ih =>
    intro e h
    unfold checkAxisFrom at h
    by_cases hb : first.getD axis 0 = s.getD axis 0
    · rw [if_pos hb] at h
      obtain ⟨j, hj, he, hne, hagree⟩ := ih (idx + 1) e h
      refine ⟨j + 1, by simpa using Nat.succ_lt_succ hj, ?_, ?_, ?_⟩
      · have harith : idx + (j + 1) = idx + 1 + j := by omega
        rw [List.getD_cons_succ, harith]
        exact he
      · rw [List.getD_cons_succ]
        exact hne
      · intro j' hj'
        cases j' with
        | zero => simpa using hb
        | succ j' =>
          rw [List.getD_cons_succ]
          exact hagree j' (Nat.lt_of_succ_lt_succ hj')
    · rw [if_neg hb] at h
      injection h with h
      refine ⟨0, by simp, ?_, ?_, ?_⟩
      · rw [← h]
        simp
      · simpa using hb
      · intro j' hj'
        exact absurd hj' (Nat.not_lt_zero j')

lemma checkAxesFrom_error (first : Shape) (rest : List Shape) :
    ∀ (n axis : Nat) (e : Err),
    checkAxesFrom first rest n axis = Except.error e →
    ∃ m < n, checkAxisFrom first (axis + m) 1 rest = Except.error e
      ∧ ∀ m' < m, ∀ s ∈ rest, first.getD (axis + m') 0 = s.getD (axis + m') 0 := by
  intro n
  induction n with
  | zero =>
    intro axis e h
    exact absurd h (by simp [checkAxesFrom])
  | succ n ih =>
    intro axis e h
    unfold checkAxesFrom at h
    cases hx : checkAxisFrom first axis 1 rest with
    | error e' =>
      rw [hx] at h
      injection h with h
      refine ⟨0, Nat.succ_pos n, ?_, ?_⟩
      · rw [Nat.add_zero, hx, h]
      · intro m' hm'
        exact absurd hm' (Nat.not_lt_zero m')
    | ok u =>
      cases u
      rw [hx] at h
      obtain ⟨m, hm, herr, hagree⟩ := ih (axis + 1) e h
      refine ⟨m + 1, Nat.succ_lt_succ hm, ?_, ?_⟩
      · have harith : axis + (m + 1) = axis + 1 + m := by omega
        rw [harith]
        exact herr
      · intro m' hm' s hs
        cases m' with
        | zero =>
          rw [Nat.add_zero]
          exact (checkAxisFrom_ok_iff first axis 1 rest).mp hx s hs
        | succ m' =>
          have harith : axis + (m' + 1) = axis + 1 + m' := by omega
          rw [harith]
          exact hagree m' (Nat.lt_of_succ_lt_succ hm') s hs

/-- C6: for a non-empty shape list whose shapes all have rank at least
`num_batch_dims`, the validation succeeds exactly when every later shape
agrees with the first on every batch axis, and a failure is a
`BatchMismatch` carrying the smallest mismatching axis `i`, the smallest
position (reported as `1 + j`, counting the first shape as 0) among the
later shapes differing at `i`, and the two conflicting extents. -/
theorem C6_batch_mismatch_report (b : Nat) (first : Shape) (rest : List Shape)
    (hrank : ∀ s ∈ first :: rest, b ≤ s.length) :
    (CheckBatchDimensionsMatch b (first :: rest) = Except.ok ()
        ↔ ∀ i < b, ∀ s ∈ rest, first.getD i 0 = s.getD i 0)
      ∧ ∀ e, CheckBatchDimensionsMatch b (first :: rest) = Except.error e →
          ∃ i < b, ∃ j < rest.length,
            e = Err.BatchMismatch i (first.getD i 0) ((rest.getD j []).getD i 0) (1 + j)
              ∧ first.getD i 0 ≠ (rest.getD j []).getD i 0
              ∧ (∀ i' < i, ∀ s ∈ rest, first.getD i' 0 = s.getD i' 0)
              ∧ ∀ j' < j, first.getD i 0 = (rest.getD j' []).getD i 0 := by
  constructor
  · rw [CheckBatchDimensionsMatch_ok_iff]
    exact ⟨fun h => h.2, fun h => ⟨hrank, h⟩⟩
  · intro e h
    unfold CheckBatchDimensionsMatch at h
    rw [(checkRanksFrom_ok_iff b 0 (first :: rest)).mpr hrank] at h
    obtain ⟨m, hm, herr, hagree⟩ := checkAxesFrom_error first rest b 0 e h
    simp only [Nat.zero_add] at herr hagree
    obtain ⟨j, hj, he, hne, hagree'⟩ := checkAxisFrom_error first m 1 rest e herr
    exact ⟨m, hm, j, hj, he, hne, hagree, hagree'⟩

/-- C6, witness: the error example of the specification, two shapes with
mismatched extents 3 and 4 at axis 0 under one batch dimension: the
reported mismatch is at axis 0, tensor position 1, values 3 and 4. -/
theorem C6_witness :
    ∃ i < 1, ∃ j < ([[4]] : List Shape).length,
      Err.BatchMismatch 0 3 4 1
          = Err.BatchMismatch i (([3] : Shape).getD i 0)
              ((([[4]] : List Shape).getD j []).getD i 0) (1 + j)
        ∧ ([3] : Shape).getD i 0 ≠ (([[4]] : List Shape).getD j []).getD i 0
        ∧ (∀ i' < i, ∀ s ∈ ([[4]] : List Shape), ([3] : Shape).getD i' 0 = s.getD i' 0)
        ∧ ∀ j' < j, ([3] : Shape).getD i 0 = (([[4]] : List Shape).getD j' []).getD i 0 :=
  (C6_batch_mismatch_report 1 [3] [[4]] (by decide)).2 (Err.BatchMismatch 0 3 4 1) rfl

end Ort
